import Mathlib

/-!
Verification development for the myOpenCut audio engine.

Shallow embedding notes:
* JS `number` values that the claims exercise with exact arithmetic
  (timeline times, marker times, volumes) are modelled as `ℚ`.
* The DSP pipeline (RMS window, compressor curve) genuinely computes with
  `sqrt`, `log`, `exp` and powers, so it is modelled over `ℝ`.
* JS `Array.prototype.sort` with a consistent comparator is specified by
  ECMA-262 to produce the (unique) stable sorted order; it is modelled by
  `List.insertionSort`, which is stable.
* JS `Map` objects keyed by strings are modelled as functions
  `String → Option _` (or `String → List _` with the empty list standing
  for an absent key where only the fold over the stored list is observed).
* Loops with `break` are modelled by structurally recursive helpers; the
  `while` loops of the binary search are modelled with an explicit fuel
  argument that strictly exceeds the number of iterations the source loop
  can perform.
-/

/-! Data model: automation (src/apps/web/src/types in part_003). -/

/-- Audio volume operation: `{ trackId, value }` (value is a volume 0-100).
The constant `type: "audio-volume"` tag and the operation id are never read
by the code under verification and are omitted. -/
structure AudioVolumeOperationM where
  trackId : String
  value : ℚ
deriving DecidableEq

/-- AutomationState: `{ id, operations }` (name/description/timestamps are
never read by the code under verification). -/
structure AutomationStateM where
  id : String
  operations : List AudioVolumeOperationM
deriving DecidableEq

/-- Point marker fields `{ id, stateId, time }`. -/
structure PointMarkerM where
  id : String
  stateId : String
  time : ℚ
deriving DecidableEq

/-- AutomationMarker: tagged union of range and point markers. -/
inductive AutomationMarkerM where
  | range (id : String) (stateId : String) (trackId : String) (elementId : String)
  | point (p : PointMarkerM)
deriving DecidableEq

/-- The `stateId` field, shared by both variants. -/
def AutomationMarkerM.stateId : AutomationMarkerM → String
  | .range _ s _ _ => s
  | .point p => p.stateId

/-! Automation queries (src/apps/web/src/lib/automation/apply-automation.ts,
first document, lines 1-101). -/

/-- getActiveAutomationForElement: collect states of range markers whose
trackId and elementId match; `time` is accepted but never read (as in the
source). The loop that pushes found states is a `filterMap`. -/
def getActiveAutomationForElement (trackId : String) (elementId : String)
    (time : ℚ) (markers : List AutomationMarkerM)
    (states : List AutomationStateM) : List AutomationStateM :=
  markers.filterMap (fun m =>
    match m with
    | .range _ s tId eId =>
        if tId == trackId && eId == elementId then
          states.find? (fun st => st.id == s)
        else none
    | .point _ => none)

/-- Helper for getActiveAutomationAtTime: walk the sorted point markers,
skipping stateIds already seen, resolving each remaining stateId
(mirrors the `seenStates` set plus push loop of the source). -/
def collectUniqueStates (states : List AutomationStateM) :
    List PointMarkerM → List String → List AutomationStateM
  | [], _ => []
  | m :: rest, seen =>
      if seen.contains m.stateId then collectUniqueStates states rest seen
      else
        match states.find? (fun st => st.id == m.stateId) with
        | some st => st :: collectUniqueStates states rest (m.stateId :: seen)
        | none => collectUniqueStates states rest seen

/-- getActiveAutomationAtTime: filter point markers with time ≤ t, sort them
most-recent first (JS `sort((a,b) => b.time - a.time)`, stable), then collect
unique states in that order. -/
def getActiveAutomationAtTime (time : ℚ) (markers : List AutomationMarkerM)
    (states : List AutomationStateM) : List AutomationStateM :=
  let pointMarkers := markers.filterMap (fun m =>
    match m with
    | .point p => if p.time ≤ time then some p else none
    | .range _ _ _ _ => none)
  let activePointMarkers :=
    List.insertionSort (fun a b => b.time ≤ a.time) pointMarkers
  collectUniqueStates states activePointMarkers []

/-- getEffectiveVolume: concatenate range-marker states and point-marker
states, then apply every volume operation targeting `trackId` in order,
last assignment winning; initial value is `baseVolume`. -/
def getEffectiveVolume (trackId : String) (elementId : String) (time : ℚ)
    (baseVolume : ℚ) (markers : List AutomationMarkerM)
    (states : List AutomationStateM) : ℚ :=
  let elementAutomation :=
    getActiveAutomationForElement trackId elementId time markers states
  let timeAutomation := getActiveAutomationAtTime time markers states
  let allAutomation := elementAutomation ++ timeAutomation
  allAutomation.foldl
    (fun v st => st.operations.foldl
      (fun v2 op => if op.trackId == trackId then op.value else v2) v)
    baseVolume

/-! Data model: one-shots (src/unnamed part_004 and the one-shot types). -/

/-- OneshotDefinition: trim window and cue point; fields the timing code
never reads (name, color, audioSource, audioDuration, timestamps) are
omitted. -/
structure OneshotDefinitionM where
  id : String
  trimStart : ℚ
  trimEnd : ℚ
  cuePoint : ℚ
deriving DecidableEq

/-- OneshotMarker: `{ id, oneshotId, time }` (optional volume and createdAt
are never read by the window and timing code). -/
structure OneshotMarkerM where
  id : String
  oneshotId : String
  time : ℚ
deriving DecidableEq

/-- One entry of the sorted playback index built by prepareForPlayback. -/
structure OneshotIndexEntry where
  marker : OneshotMarkerM
  definition : OneshotDefinitionM
  audioStartTime : ℚ
  audioEndTime : ℚ
deriving DecidableEq

/-- One result of getMarkersInTimeWindow. -/
structure OneshotWindowResult where
  marker : OneshotMarkerM
  definition : OneshotDefinitionM
  audioStartTime : ℚ
deriving DecidableEq

/-- The OneshotManager's view of the active scene plus its playback cache. -/
structure OneshotManagerState where
  oneshotDefinitions : List OneshotDefinitionM
  oneshotMarkers : List OneshotMarkerM
  sortedMarkerIndex : Option (List OneshotIndexEntry)

/-- OneshotManager.getDefinition: first definition with the given id. -/
def getDefinition (st : OneshotManagerState) (definitionId : String) :
    Option OneshotDefinitionM :=
  st.oneshotDefinitions.find? (fun d => d.id == definitionId)

/-- OneshotManager.getAudioStartTimeForMarker: `time - (cuePoint - trimStart)`
when the definition resolves, else null. -/
def getAudioStartTimeForMarker (st : OneshotManagerState)
    (marker : OneshotMarkerM) : Option ℚ :=
  match getDefinition st marker.oneshotId with
  | none => none
  | some d =>
      let cueOffset := d.cuePoint - d.trimStart
      some (marker.time - cueOffset)

/-- Slow path of OneshotManager.getMarkersInTimeWindow: linear scan over the
scene's markers, skipping markers with no definition, keeping overlaps with
the window (the `continue`/push loop is a `filterMap`). -/
def getMarkersInTimeWindowSlow (st : OneshotManagerState)
    (startTime endTime : ℚ) : List OneshotWindowResult :=
  st.oneshotMarkers.filterMap (fun marker =>
    match getDefinition st marker.oneshotId with
    | none => none
    | some d =>
        match getAudioStartTimeForMarker st marker with
        | none => none
        | some audioStartTime =>
            let audioEndTime := audioStartTime + (d.trimEnd - d.trimStart)
            if audioStartTime < endTime ∧ startTime < audioEndTime then
              some ⟨marker, d, audioStartTime⟩
            else none)

/-- The definition lookup map built at the start of prepareForPlayback
(`Map.set` in iteration order: later definitions with the same id overwrite
earlier ones). -/
def oneshotDefMap (defs : List OneshotDefinitionM) :
    String → Option OneshotDefinitionM :=
  defs.foldl (fun m d => fun k => if k == d.id then some d else m k)
    (fun _ => none)

/-- OneshotManager.prepareForPlayback, index construction: resolve each
marker through the definition map, compute audio start/end, then sort by
audioStartTime (JS stable sort). -/
def buildSortedMarkerIndex (defs : List OneshotDefinitionM)
    (markers : List OneshotMarkerM) : List OneshotIndexEntry :=
  let index := markers.filterMap (fun marker =>
    match oneshotDefMap defs marker.oneshotId with
    | none => none
    | some d =>
        let cueOffset := d.cuePoint - d.trimStart
        let audioStartTime := marker.time - cueOffset
        let sliceDuration := d.trimEnd - d.trimStart
        some ⟨marker, d, audioStartTime, audioStartTime + sliceDuration⟩)
  List.insertionSort (fun a b => a.audioStartTime ≤ b.audioStartTime) index

/-- OneshotManager.prepareForPlayback: store the sorted index. -/
def prepareForPlayback (st : OneshotManagerState) : OneshotManagerState :=
  let idx := buildSortedMarkerIndex st.oneshotDefinitions st.oneshotMarkers
  { st with sortedMarkerIndex := some idx }

/-- A concrete manager state used to exercise the window queries: two
definitions with slice lengths 10 and 1, markers at t=0 and t=1 (audio
ranges 0..10 and 1..2), no playback index. -/
def windowDemoState : OneshotManagerState :=
  ⟨[⟨"d1", 0, 10, 0⟩, ⟨"d2", 0, 1, 0⟩],
   [⟨"m1", "d1", 0⟩, ⟨"m2", "d2", 1⟩], none⟩

/-- The `while (lo < hi)` binary-search loop of getMarkersInTimeWindowFast.
`fuel` strictly exceeds the number of iterations the loop can perform
(each iteration shrinks `hi - lo`). -/
def lowerBoundLoop (idx : List OneshotIndexEntry) (startTime : ℚ) :
    ℕ → ℕ → ℕ → ℕ
  | 0, lo, _ => lo
  | fuel + 1, lo, hi =>
      if lo < hi then
        let mid := (lo + hi) / 2
        match idx[mid]? with
        | some e =>
            if e.audioStartTime < startTime then
              lowerBoundLoop idx startTime fuel (mid + 1) hi
            else lowerBoundLoop idx startTime fuel lo mid
        | none => lo
      else lo

/-- The backward scan of getMarkersInTimeWindowFast:
`while (scanStart > 0 && index[scanStart - 1].audioEndTime > startTime)`. -/
def backwardScanLoop (idx : List OneshotIndexEntry) (startTime : ℚ) :
    ℕ → ℕ → ℕ
  | 0, scanStart => scanStart
  | fuel + 1, scanStart =>
      if 0 < scanStart then
        match idx[scanStart - 1]? with
        | some e =>
            if startTime < e.audioEndTime then
              backwardScanLoop idx startTime fuel (scanStart - 1)
            else scanStart
        | none => scanStart
      else scanStart

/-- The forward scan of getMarkersInTimeWindowFast: break once
audioStartTime ≥ endTime, collect entries with audioEndTime > startTime. -/
def forwardCollect (startTime endTime : ℚ) :
    List OneshotIndexEntry → List OneshotWindowResult
  | [] => []
  | e :: rest =>
      if endTime ≤ e.audioStartTime then []
      else if startTime < e.audioEndTime then
        ⟨e.marker, e.definition, e.audioStartTime⟩ ::
          forwardCollect startTime endTime rest
      else forwardCollect startTime endTime rest

/-- OneshotManager.getMarkersInTimeWindowFast on a built index. -/
def getMarkersInTimeWindowFast (idx : List OneshotIndexEntry)
    (startTime endTime : ℚ) : List OneshotWindowResult :=
  if idx.length = 0 then []
  else
    let lo := lowerBoundLoop idx startTime (idx.length + 1) 0 idx.length
    let scanStart := backwardScanLoop idx startTime (lo + 1) lo
    forwardCollect startTime endTime (idx.drop scanStart)

/-- OneshotManager.getMarkersInTimeWindow: fast path when the sorted index
exists, slow path otherwise. -/
def getMarkersInTimeWindow (st : OneshotManagerState) (startTime endTime : ℚ) :
    List OneshotWindowResult :=
  match st.sortedMarkerIndex with
  | some idx => getMarkersInTimeWindowFast idx startTime endTime
  | none => getMarkersInTimeWindowSlow st startTime endTime

/-! Time-remap engine (src/apps/web/src/lib/time-remap/index.ts). -/

/-- Marker trigger/playback behavior. -/
inductive MarkerTimeBehavior where
  | stretch
  | original
deriving DecidableEq

/-- MarkerRemapConfig: trigger and playback behavior. -/
structure MarkerRemapConfigM where
  triggerBehavior : MarkerTimeBehavior
  playbackBehavior : MarkerTimeBehavior
deriving DecidableEq

/-- remapTime: `time / timeScale`, identity when timeScale ≤ 0. -/
def remapTime (time timeScale : ℚ) : ℚ :=
  if timeScale ≤ 0 then time else time / timeScale

/-- Math.max on two rationals (spelled out so that kernel reduction works
on concrete inputs). -/
def mathMax (a b : ℚ) : ℚ :=
  if a ≤ b then b else a

/-- OneshotAudioTiming returned by calculateOneshotAudioTiming. -/
structure OneshotAudioTimingM where
  startTime : ℚ
  playbackRate : ℚ
  trimStart : ℚ
  trimEnd : ℚ
  cuePoint : ℚ
deriving DecidableEq

/-- calculateOneshotAudioTiming: trigger time per triggerBehavior, playback
rate per playbackBehavior, audio starts `cuePoint / playbackRate` before the
trigger, clamped at 0. -/
def calculateOneshotAudioTiming (marker : OneshotMarkerM)
    (d : OneshotDefinitionM) (config : MarkerRemapConfigM)
    (timeScale : ℚ) : OneshotAudioTimingM :=
  let triggerTime :=
    if config.triggerBehavior = .stretch then remapTime marker.time timeScale
    else marker.time
  let playbackRate :=
    if config.playbackBehavior = .stretch then timeScale else 1
  let audioStartTime := triggerTime - d.cuePoint / playbackRate
  ⟨mathMax 0 audioStartTime, playbackRate, d.trimStart, d.trimEnd, d.cuePoint⟩

/-! Sidechain DSP pipeline
(src/apps/web/src/core/managers/sidechain-manager.ts, compute-envelope
document, lines 888-1168).  Times, samples and gains are JS doubles
computing with log, exp, sqrt and powers; they are modelled over ℝ.  The
five compressor parameters are taken as separate arguments, mirroring the
source's destructuring of SidechainParams. -/

/-- ENVELOPE_SAMPLE_RATE = 200 Hz. -/
def ENVELOPE_SAMPLE_RATE : ℝ := 200

/-- RMS_WINDOW_SECONDS = 0.01 (10 ms). -/
def RMS_WINDOW_SECONDS : ℝ := 0.01

/-- linearToDb: 20·log10.  The JS version returns -Infinity for inputs ≤ 0;
its only consumer compares `rmsDb > threshold`, which is then false, and
that comparison is embedded as `0 < r ∧ threshold < linearToDb r`. -/
noncomputable def linearToDb (linear : ℝ) : ℝ :=
  20 * Real.logb 10 linear

/-- dbToLinear: 10 ^ (db / 20). -/
noncomputable def dbToLinear (db : ℝ) : ℝ :=
  (10 : ℝ) ^ (db / 20)

/-- The target reduction of one compressor sample: when the RMS value is
positive and its dB value exceeds the threshold (in JS a value ≤ 0 maps to
-Infinity, never above the threshold), `(rmsDb - threshold)·(1 - 1/ratio)`
clamped above by maxReductionDb; 0 otherwise. -/
noncomputable def targetReductionDb (threshold : ℝ) ( ratio maxReductionDb
    r : ℝ) : ℝ :=
  if 0 < r ∧ threshold < linearToDb r then
    min ((linearToDb r - threshold) * (1 - 1 / ratio)) maxReductionDb
  else 0

/-- One smoothing step: attack coefficient while the reduction grows,
release coefficient while it decays. -/
noncomputable def smoothStep (attackCoeff releaseCoeff s t : ℝ) : ℝ :=
  if s < t then attackCoeff * s + (1 - attackCoeff) * t
  else releaseCoeff * s + (1 - releaseCoeff) * t

/-- The per-sample loop of computeGainCurve, carrying smoothedReductionDb:
compute the clamped target reduction, smooth, emit the linear gain. -/
noncomputable def gainCurveLoop (attackCoeff releaseCoeff maxReductionDb
    threshold : ℝ) ( ratio : ℝ) : ℝ → List ℝ → List ℝ
  | _, [] => []
  | smoothedReductionDb, r :: rest =>
      let s := smoothStep attackCoeff releaseCoeff smoothedReductionDb
        (targetReductionDb threshold ratio maxReductionDb r)
      dbToLinear (-s) ::
        gainCurveLoop attackCoeff releaseCoeff maxReductionDb threshold
          ratio s rest

/-- computeGainCurve: single-pole IIR coefficients from attack/release, max
reduction |depth|, then the smoothing loop from 0. -/
noncomputable def computeGainCurve (rmsEnvelope : List ℝ) (threshold : ℝ)
    ( ratio attack release depth : ℝ) : List ℝ :=
  let attackCoeff :=
    if 0 < attack then Real.exp (-1 / (attack * ENVELOPE_SAMPLE_RATE)) else 0
  let releaseCoeff :=
    if 0 < release then Real.exp (-1 / (release * ENVELOPE_SAMPLE_RATE))
    else 0
  let maxReductionDb := |depth|
  gainCurveLoop attackCoeff releaseCoeff maxReductionDb threshold ratio 0
    rmsEnvelope

/-- An AudioBuffer: sample rate, frame count, per-channel PCM. -/
structure AudioBufferM where
  sampleRate : ℝ
  length : ℕ
  channels : List (List ℝ)

/-- mixToMono: sum the channels samplewise, divide by the channel count
when there is more than one. -/
noncomputable def mixToMono (buffer : AudioBufferM) : List ℝ :=
  let numChannels := buffer.channels.length
  (List.range buffer.length).map (fun (i : ℕ) =>
    let s := (buffer.channels.map (fun channelData =>
      channelData.getD i 0)).sum
    if 1 < numChannels then s / (numChannels : ℝ) else s)

/-- computeRmsEnvelope: resample to the envelope rate with a sliding RMS
window of RMS_WINDOW_SECONDS, clamped to the buffer; empty windows give
0. -/
noncomputable def computeRmsEnvelope (mono : List ℝ)
    (sourceSampleRate envelopeSampleRate : ℝ) : List ℝ :=
  let windowSamples : ℤ := ⌊RMS_WINDOW_SECONDS * sourceSampleRate⌋
  let halfWindow : ℤ := ⌊(windowSamples : ℝ) / 2⌋
  let envelopeLength : ℕ :=
    (⌈((mono.length : ℝ) / sourceSampleRate) * envelopeSampleRate⌉).toNat
  (List.range envelopeLength).map (fun (i : ℕ) =>
    let centerSample : ℤ := ⌊((i : ℝ) / envelopeSampleRate) * sourceSampleRate⌋
    let start := max 0 (centerSample - halfWindow)
    let stop := min (mono.length : ℤ) (centerSample + halfWindow)
    let count := stop - start
    if count ≤ 0 then 0
    else
      let sumSquares := ((List.range count.toNat).map (fun (j : ℕ) =>
        let v := mono.getD (start + (j : ℤ)).toNat 0
        v * v)).sum
      Real.sqrt (sumSquares / (count : ℝ)))

/-- One source element fed to the envelope engine. -/
structure SourceElementM where
  buffer : AudioBufferM
  startTime : ℝ
  trimStart : ℝ
  duration : ℝ
  loop : Bool

/-- `output[idx] += v` on a typed array: out-of-range writes are
discarded. -/
noncomputable def addAtInt (output : List ℝ) (idx : ℤ) (v : ℝ) : List ℝ :=
  if 0 ≤ idx ∧ idx < (output.length : ℤ) then
    output.set idx.toNat (output.getD idx.toNat 0 + v)
  else output

/-- The inner `for i` loop of composeSourceTrackBuffer: break when the
output index passes the end, wrap the source offset when looping, break
when the source index passes the mono buffer, else accumulate.  The fuel
is the loop bound maxOutputSamples. -/
noncomputable def writeElementLoop (mono : List ℝ)
    (outputStartSample sourceStartSample : ℤ) (resampleRatio : ℝ)
    (loop : Bool) (resampledLength : ℤ) : ℕ → ℕ → List ℝ → List ℝ
  | 0, _, output => output
  | n + 1, i, output =>
      let outputIndex := outputStartSample + (i : ℤ)
      if (output.length : ℤ) ≤ outputIndex then output
      else
        let sourceOffset : ℤ :=
          if loop ∧ 0 < resampledLength then (i : ℤ) % resampledLength
          else (i : ℤ)
        let sourceIndex :=
          sourceStartSample + ⌊(sourceOffset : ℝ) / resampleRatio⌋
        if (mono.length : ℤ) ≤ sourceIndex then output
        else
          writeElementLoop mono outputStartSample sourceStartSample
            resampleRatio loop resampledLength n (i + 1)
            (addAtInt output outputIndex (mono.getD sourceIndex.toNat 0))

/-- Per-element body of composeSourceTrackBuffer: mono mix, resample ratio,
trim/duration in source samples, loop bound (to the end of the output when
looping, the resampled length otherwise). -/
noncomputable def writeElement (output : List ℝ) (element : SourceElementM)
    (targetSampleRate : ℝ) : List ℝ :=
  let mono := mixToMono element.buffer
  let resampleRatio := targetSampleRate / element.buffer.sampleRate
  let sourceStartSample : ℤ := ⌊element.trimStart * element.buffer.sampleRate⌋
  let sourceLengthSamples : ℤ := ⌊element.duration * element.buffer.sampleRate⌋
  let resampledLength : ℤ := ⌊(sourceLengthSamples : ℝ) * resampleRatio⌋
  let outputStartSample : ℤ := ⌊element.startTime * targetSampleRate⌋
  let maxOutputSamples : ℤ :=
    if element.loop then (output.length : ℤ) - outputStartSample
    else resampledLength
  writeElementLoop mono outputStartSample sourceStartSample resampleRatio
    element.loop resampledLength maxOutputSamples.toNat 0 output

/-- composeSourceTrackBuffer: a zeroed timeline-length buffer, each element
summed into it in order. -/
noncomputable def composeSourceTrackBuffer (elements : List SourceElementM)
    (timelineDuration targetSampleRate : ℝ) : List ℝ :=
  let outputLength : ℕ := (⌈timelineDuration * targetSampleRate⌉).toNat
  elements.foldl
    (fun output element => writeElement output element targetSampleRate)
    (List.replicate outputLength 0)

/-- SidechainEnvelope: envelope sample rate, linear gains, duration. -/
structure SidechainEnvelopeR where
  sampleRate : ℝ
  gainValues : List ℝ
  duration : ℝ

/-- computeEnvelopeFromBuffer: duration from the buffer, RMS envelope at
200 Hz, gain curve. -/
noncomputable def computeEnvelopeFromBuffer (sourceBuffer : List ℝ)
    (sourceSampleRate : ℝ) (threshold : ℝ)
    ( ratio attack release depth : ℝ) : SidechainEnvelopeR :=
  let duration := (sourceBuffer.length : ℝ) / sourceSampleRate
  let rmsEnvelope :=
    computeRmsEnvelope sourceBuffer sourceSampleRate ENVELOPE_SAMPLE_RATE
  let gainValues :=
    computeGainCurve rmsEnvelope threshold ratio attack release depth
  ⟨ENVELOPE_SAMPLE_RATE, gainValues, duration⟩

/-- computeSidechainEnvelope: with no elements, a constant-1 envelope of
the timeline duration; otherwise compose at the first element's sample
rate and compress. -/
noncomputable def computeSidechainEnvelope
    (sourceElements : List SourceElementM) (timelineDuration : ℝ)
    (threshold : ℝ) ( ratio attack release depth : ℝ) : SidechainEnvelopeR :=
  match sourceElements with
  | [] =>
      let envelopeLength : ℕ :=
        (⌈timelineDuration * ENVELOPE_SAMPLE_RATE⌉).toNat
      ⟨ENVELOPE_SAMPLE_RATE, List.replicate envelopeLength 1,
        timelineDuration⟩
  | el0 :: _ =>
      let targetSampleRate := el0.buffer.sampleRate
      computeEnvelopeFromBuffer
        (composeSourceTrackBuffer sourceElements timelineDuration
          targetSampleRate)
        targetSampleRate threshold ratio attack release depth

/-! Sidechain manager gain queries
(src/apps/web/src/core/managers/sidechain-manager.ts, lines 230-343 and
1150-1168).  The envelope cache and the playback lookup tables are JS Maps
keyed by strings; they are modelled as functions.  For the lookup tables,
a key that was never pushed maps to [] and the fast path's
`if (!envelopes) return 1` coincides with folding the empty list, since
the source only creates a key by pushing an envelope onto it. -/

/-- getEnvelopeGainAtTime: 1 outside [0, duration); otherwise linear
interpolation between the floor index and the next index (clamped to the
last sample). -/
noncomputable def getEnvelopeGainAtTime (envelope : SidechainEnvelopeR)
    (time : ℝ) : ℝ :=
  if time < 0 ∨ envelope.duration ≤ time then 1
  else
    let sampleIndex := time * envelope.sampleRate
    let index0 : ℤ := ⌊sampleIndex⌋
    let index1 : ℤ := min (index0 + 1) ((envelope.gainValues.length : ℤ) - 1)
    let frac := sampleIndex - (index0 : ℝ)
    if (envelope.gainValues.length : ℤ) ≤ index0 then 1
    else
      envelope.gainValues.getD index0.toNat 0 * (1 - frac) +
        envelope.gainValues.getD index1.toNat 0 * frac

/-- SidechainConfig fields read by the gain queries (name, source, params
and timestamps are not read there). -/
structure SidechainConfigM where
  id : String
  enabled : Bool
  targetTrackIds : List String
  targetOneshotDefinitionIds : List String

/-- The SidechainManager's configs (from the scene), envelope cache, and
optional playback lookup tables. -/
structure SidechainManagerM where
  configs : List SidechainConfigM
  envelopeCache : String → Option SidechainEnvelopeR
  trackGainLookup : Option (String → List SidechainEnvelopeR)
  oneshotGainLookup : Option (String → List SidechainEnvelopeR)

/-- SidechainManager.getSidechainGainForTrack: fast path multiplies the
looked-up envelopes; slow path filters enabled configs targeting the
track, returns 1 when there are none, and multiplies the cached envelopes
(configs without a cached envelope are skipped). -/
noncomputable def getSidechainGainForTrack (mgr : SidechainManagerM)
    (trackId : String) (time : ℝ) : ℝ :=
  match mgr.trackGainLookup with
  | some lookup =>
      (lookup trackId).foldl
        (fun combinedGain envelope =>
          combinedGain * getEnvelopeGainAtTime envelope time) 1
  | none =>
      let configs := mgr.configs.filter
        (fun c => c.enabled && c.targetTrackIds.contains trackId)
      if configs.length = 0 then 1
      else
        configs.foldl
          (fun combinedGain c =>
            match mgr.envelopeCache c.id with
            | none => combinedGain
            | some envelope =>
                combinedGain * getEnvelopeGainAtTime envelope time) 1

/-- SidechainManager.getSidechainGainForOneshot: as for tracks, keyed by
one-shot definition id. -/
noncomputable def getSidechainGainForOneshot (mgr : SidechainManagerM)
    (definitionId : String) (time : ℝ) : ℝ :=
  match mgr.oneshotGainLookup with
  | some lookup =>
      (lookup definitionId).foldl
        (fun combinedGain envelope =>
          combinedGain * getEnvelopeGainAtTime envelope time) 1
  | none =>
      let configs := mgr.configs.filter
        (fun c => c.enabled && c.targetOneshotDefinitionIds.contains definitionId)
      if configs.length = 0 then 1
      else
        configs.foldl
          (fun combinedGain c =>
            match mgr.envelopeCache c.id with
            | none => combinedGain
            | some envelope =>
                combinedGain * getEnvelopeGainAtTime envelope time) 1

/-- The lookup-table construction of SidechainManager.prepareForPlayback:
over enabled configs in order, skip configs without a cached envelope, and
push the envelope onto the list of every targeted id (the source fills the
track table and the one-shot table in the same loop; it is run here once
per target selector). -/
noncomputable def buildGainLookup (configs : List SidechainConfigM)
    (cache : String → Option SidechainEnvelopeR)
    (targetsOf : SidechainConfigM → List String) :
    String → List SidechainEnvelopeR :=
  (configs.filter (fun c => c.enabled)).foldl
    (fun lookup c =>
      match cache c.id with
      | none => lookup
      | some envelope =>
          (targetsOf c).foldl
            (fun lk targetId =>
              fun k => if k = targetId then lk k ++ [envelope] else lk k)
            lookup)
    (fun _ => [])

/-- SidechainManager.prepareForPlayback: store both lookup tables. -/
noncomputable def sidechainPrepareForPlayback (mgr : SidechainManagerM) :
    SidechainManagerM :=
  let trackLookup := buildGainLookup mgr.configs mgr.envelopeCache
    (fun c => c.targetTrackIds)
  let oneshotLookup := buildGainLookup mgr.configs mgr.envelopeCache
    (fun c => c.targetOneshotDefinitionIds)
  { mgr with trackGainLookup := some trackLookup,
             oneshotGainLookup := some oneshotLookup }

/-- Specification-side list: the cached envelopes of the enabled configs
targeting an id, in config order (the claim's "all envelopes of enabled
configs targeting that id"). -/
noncomputable def envelopesTargeting (configs : List SidechainConfigM)
    (cache : String → Option SidechainEnvelopeR)
    (targetsOf : SidechainConfigM → List String) (targetId : String) :
    List SidechainEnvelopeR :=
  (configs.filter (fun c => c.enabled && (targetsOf c).contains targetId)).filterMap
    (fun c => cache c.id)

/-! Scene-level cascade deletes
(src/unnamed part_004 lines 94-121 and
src/apps/web/src/core/managers/automation-manager.ts lines 80-104). -/

/-- The scene fields touched by the two delete operations. -/
structure SceneM where
  oneshotDefinitions : List OneshotDefinitionM
  oneshotMarkers : List OneshotMarkerM
  automationStates : List AutomationStateM
  automationMarkers : List AutomationMarkerM

/-- OneshotManager.deleteDefinition: one scene update removing the
definition and every marker whose oneshotId references it. -/
def deleteDefinition (scene : SceneM) (definitionId : String) : SceneM :=
  let updatedDefinitions :=
    scene.oneshotDefinitions.filter (fun d => d.id != definitionId)
  let updatedMarkers :=
    scene.oneshotMarkers.filter (fun m => m.oneshotId != definitionId)
  { scene with oneshotDefinitions := updatedDefinitions,
               oneshotMarkers := updatedMarkers }

/-- AutomationManager.deleteState: one scene update removing the state and
every automation marker whose stateId references it. -/
def deleteState (scene : SceneM) (stateId : String) : SceneM :=
  let updatedStates :=
    scene.automationStates.filter (fun s => s.id != stateId)
  let updatedMarkers :=
    scene.automationMarkers.filter (fun m => m.stateId != stateId)
  { scene with automationStates := updatedStates,
               automationMarkers := updatedMarkers }

/-- C1: two point markers, t=1 (state A: track X ← 30) and t=2 (state B:
track X ← 70), base 50, evaluated at t=3.  The spec (S6) expects 70: the
state of the most recent point marker should win.  The code sorts the
active point markers most-recent first and then folds with last-assignment
wins, so the OLDEST marker's state is applied last: the query returns 30,
not 70. -/
theorem getEffectiveVolume_s6_oldest_point_wins :
    getEffectiveVolume "X" "E" 3 50
      [.point ⟨"m1", "A", 1⟩, .point ⟨"m2", "B", 2⟩]
      [⟨"A", [⟨"X", 30⟩]⟩, ⟨"B", [⟨"X", 70⟩]⟩] = 30 ∧
    getEffectiveVolume "X" "E" 3 50
      [.point ⟨"m1", "A", 1⟩, .point ⟨"m2", "B", 2⟩]
      [⟨"A", [⟨"X", 30⟩]⟩, ⟨"B", [⟨"X", 70⟩]⟩] ≠ 70 := by
  decide

/-- C2: a range marker (state R: track X ← 10) on (X, E) and a point marker
at t=0 (state P: track X ← 90), queried at (X, E, t=1, base 50).  The spec
and the source comment say range/element automation takes precedence, but
the code concatenates the range states FIRST and then applies last-wins,
so the point-marker state is applied last: the query returns 90, the point
state's value, not 10. -/
theorem getEffectiveVolume_point_overrides_range :
    getEffectiveVolume "X" "E" 1 50
      [.range "r1" "R" "X" "E", .point ⟨"p1", "P", 0⟩]
      [⟨"R", [⟨"X", 10⟩]⟩, ⟨"P", [⟨"X", 90⟩]⟩] = 90 ∧
    getEffectiveVolume "X" "E" 1 50
      [.range "r1" "R" "X" "E", .point ⟨"p1", "P", 0⟩]
      [⟨"R", [⟨"X", 10⟩]⟩, ⟨"P", [⟨"X", 90⟩]⟩] ≠ 10 := by
  decide

/-- C3: fast/cold window query disagreement. Definitions d1 (slice length
10) and d2 (slice length 1), markers at t=0 (audio 0..10) and t=1
(audio 1..2); window (5, 6).  The cold scan returns m1 (still playing), but
the fast path's backward scan stops at the non-overlapping entry for m2 and
never reaches m1: the fast query returns the empty set. -/
theorem oneshot_fast_window_misses_long_entry :
    (getMarkersInTimeWindow (prepareForPlayback windowDemoState) 5 6).map
        (fun r => r.marker.id) = [] ∧
    (getMarkersInTimeWindow windowDemoState 5 6).map
        (fun r => r.marker.id) = ["m1"] := by
  have hdf : windowDemoState.oneshotDefinitions
      = [⟨"d1", 0, 10, 0⟩, ⟨"d2", 0, 1, 0⟩] := rfl
  have hmk : windowDemoState.oneshotMarkers
      = [⟨"m1", "d1", 0⟩, ⟨"m2", "d2", 1⟩] := rfl
  have hnone : windowDemoState.sortedMarkerIndex = none := rfl
  have hd1 : getDefinition windowDemoState "d1" = some ⟨"d1", 0, 10, 0⟩ := by
    simp [getDefinition, hdf]
  have hd2 : getDefinition windowDemoState "d2" = some ⟨"d2", 0, 1, 0⟩ := by
    simp [getDefinition, hdf]
  have ha1 : getAudioStartTimeForMarker windowDemoState ⟨"m1", "d1", 0⟩
      = some 0 := by
    norm_num [getAudioStartTimeForMarker, hd1]
  have ha2 : getAudioStartTimeForMarker windowDemoState ⟨"m2", "d2", 1⟩
      = some 1 := by
    norm_num [getAudioStartTimeForMarker, hd2]
  have hq1 : oneshotDefMap [⟨"d1", 0, 10, 0⟩, ⟨"d2", 0, 1, 0⟩] "d1"
      = some ⟨"d1", 0, 10, 0⟩ := by
    simp [oneshotDefMap]
  have hq2 : oneshotDefMap [⟨"d1", 0, 10, 0⟩, ⟨"d2", 0, 1, 0⟩] "d2"
      = some ⟨"d2", 0, 1, 0⟩ := by
    simp [oneshotDefMap]
  have hidx : buildSortedMarkerIndex [⟨"d1", 0, 10, 0⟩, ⟨"d2", 0, 1, 0⟩]
      [⟨"m1", "d1", 0⟩, ⟨"m2", "d2", 1⟩]
      = [⟨⟨"m1", "d1", 0⟩, ⟨"d1", 0, 10, 0⟩, 0, 10⟩,
         ⟨⟨"m2", "d2", 1⟩, ⟨"d2", 0, 1, 0⟩, 1, 2⟩] := by
    norm_num [buildSortedMarkerIndex, hq1, hq2, List.filterMap_cons,
      List.insertionSort, List.orderedInsert]
  constructor
  · norm_num [getMarkersInTimeWindow, prepareForPlayback, hdf, hmk, hidx,
      getMarkersInTimeWindowFast, lowerBoundLoop, backwardScanLoop,
      forwardCollect]
  · norm_num [getMarkersInTimeWindow, hnone, hmk, getMarkersInTimeWindowSlow,
      hd1, hd2, ha1, ha2, List.filterMap_cons]

/-- C4 counterexample: marker at t=5 on a definition with trimStart=1,
trimEnd=3, cuePoint=2.  With timeScale=1 and original/original behaviors,
the time-remap engine computes max(0, 5 - 2) = 3, while the one-shot
manager computes 5 - (2 - 1) = 4: the two audio start times differ, so the
claimed equality with `marker.time - (cuePoint - trimStart)` fails. -/
theorem oneshot_timing_remap_vs_manager_cex :
    (calculateOneshotAudioTiming ⟨"m0", "d0", 5⟩ ⟨"d0", 1, 3, 2⟩
        ⟨.original, .original⟩ 1).startTime = 3 ∧
    getAudioStartTimeForMarker ⟨[⟨"d0", 1, 3, 2⟩], [], none⟩
        ⟨"m0", "d0", 5⟩ = some 4 ∧
    (3 : ℚ) ≠ 4 := by
  norm_num [calculateOneshotAudioTiming, getAudioStartTimeForMarker,
    getDefinition, mathMax, remapTime]

/-- C4 (amended): with timeScale=1 and original/original behaviors the
time-remap engine's audio start time is max(0, marker.time - cuePoint); it
agrees with OneshotManager.getAudioStartTimeForMarker exactly under the
extra conditions that the definition's trimStart is 0 and the clamp is
inactive (cuePoint ≤ marker.time). -/
theorem oneshot_timing_remap_original_amended (marker : OneshotMarkerM)
    (d : OneshotDefinitionM) (st : OneshotManagerState) :
    (calculateOneshotAudioTiming marker d ⟨.original, .original⟩ 1).startTime
      = mathMax 0 (marker.time - d.cuePoint) ∧
    (getDefinition st marker.oneshotId = some d → d.trimStart = 0 →
      d.cuePoint ≤ marker.time →
      getAudioStartTimeForMarker st marker =
        some ((calculateOneshotAudioTiming marker d
          ⟨.original, .original⟩ 1).startTime)) := by
  have hcalc : (calculateOneshotAudioTiming marker d
      ⟨.original, .original⟩ 1).startTime
      = mathMax 0 (marker.time - d.cuePoint) := by
    simp [calculateOneshotAudioTiming]
  refine ⟨hcalc, fun hfind htrim hle => ?_⟩
  have h0 : mathMax 0 (marker.time - d.cuePoint) = marker.time - d.cuePoint := by
    unfold mathMax
    exact if_pos (sub_nonneg.mpr hle)
  rw [hcalc, h0]
  unfold getAudioStartTimeForMarker
  rw [hfind]
  simp [htrim]

/-- C4 amended witness: the amended theorem applied at marker time 5,
trimStart 0, cuePoint 2 (clamp inactive). -/
theorem oneshot_timing_remap_original_amended_witness :
    (calculateOneshotAudioTiming ⟨"w", "dw", 5⟩ ⟨"dw", 0, 3, 2⟩
        ⟨.original, .original⟩ 1).startTime = mathMax 0 ((5 : ℚ) - 2) ∧
    getAudioStartTimeForMarker ⟨[⟨"dw", 0, 3, 2⟩], [], none⟩ ⟨"w", "dw", 5⟩ =
      some ((calculateOneshotAudioTiming ⟨"w", "dw", 5⟩ ⟨"dw", 0, 3, 2⟩
        ⟨.original, .original⟩ 1).startTime) := by
  have h := oneshot_timing_remap_original_amended ⟨"w", "dw", 5⟩
    ⟨"dw", 0, 3, 2⟩ ⟨[⟨"dw", 0, 3, 2⟩], [], none⟩
  exact ⟨h.1, h.2 (by decide) rfl (by decide)⟩

/-- C5: derived one-shot timing.  The per-marker query returns
`time - (cuePoint - trimStart)` whenever the definition resolves, and every
entry of the playback index satisfies
audioEndTime = audioStartTime + (trimEnd - trimStart) and
audioStartTime + (cuePoint - trimStart) = marker.time. -/
theorem oneshot_derived_timing_identities (st : OneshotManagerState)
    (marker : OneshotMarkerM) (defs : List OneshotDefinitionM)
    (markers : List OneshotMarkerM) :
    getAudioStartTimeForMarker st marker =
      (getDefinition st marker.oneshotId).map
        (fun d => marker.time - (d.cuePoint - d.trimStart)) ∧
    List.Forall
      (fun e => e.audioEndTime =
          e.audioStartTime + (e.definition.trimEnd - e.definition.trimStart) ∧
        e.audioStartTime +
          (e.definition.cuePoint - e.definition.trimStart) = e.marker.time)
      (buildSortedMarkerIndex defs markers) := by
  constructor
  · unfold getAudioStartTimeForMarker
    cases getDefinition st marker.oneshotId <;> simp
  · rw [List.forall_iff_forall_mem]
    intro e he
    unfold buildSortedMarkerIndex at he
    rw [List.mem_insertionSort] at he
    rw [List.mem_filterMap] at he
    obtain ⟨m, _, hm⟩ := he
    revert hm
    cases hlook : oneshotDefMap defs m.oneshotId with
    | none => intro hm; simp at hm
    | some d =>
        intro hm
        simp only [Option.some.injEq] at hm
        subst hm
        constructor
        · rfl
        · ring

/-- A convex combination with coefficient in [0,1] stays below a common
upper bound. -/
theorem convexComboLe {c s t m : ℝ} (hc0 : 0 ≤ c) (hc1 : c ≤ 1)
    (hs : s ≤ m) (ht : t ≤ m) : c * s + (1 - c) * t ≤ m := by
  nlinarith

/-- A convex combination of nonnegative values is nonnegative. -/
theorem convexComboNonneg {c s t : ℝ} (hc0 : 0 ≤ c) (hc1 : c ≤ 1)
    (hs : 0 ≤ s) (ht : 0 ≤ t) : 0 ≤ c * s + (1 - c) * t :=
  add_nonneg (mul_nonneg hc0 hs) (mul_nonneg (by linarith) ht)

/-- The clamped target reduction never exceeds maxReductionDb. -/
theorem targetReductionDb_le_max {threshold maxReductionDb r : ℝ}
    ( ratio : ℝ) (hmax : 0 ≤ maxReductionDb) :
    targetReductionDb threshold ratio maxReductionDb r ≤ maxReductionDb := by
  unfold targetReductionDb
  split
  · exact min_le_right _ _
  · exact hmax

/-- With ratio ≥ 1 the target reduction is nonnegative (the clamp below by
0 that the spec describes is implied by the sign of the two factors). -/
theorem targetReductionDb_nonneg {threshold maxReductionDb r : ℝ}
    { ratio : ℝ} (hr : 1 ≤ ratio) (hmax : 0 ≤ maxReductionDb) :
    0 ≤ targetReductionDb threshold ratio maxReductionDb r := by
  unfold targetReductionDb
  split
  · next h =>
      have hratio0 : (0 : ℝ) < ratio := lt_of_lt_of_le one_pos hr
      have hdiv : 1 / ratio ≤ 1 := by
        rw [div_le_one hratio0]
        exact hr
      exact le_min (mul_nonneg (by linarith [h.2]) (by linarith)) hmax
  · exact le_refl 0

/-- smoothStep preserves a common upper bound. -/
theorem smoothStep_le {ac rc s t m : ℝ} (hac0 : 0 ≤ ac) (hac1 : ac ≤ 1)
    (hrc0 : 0 ≤ rc) (hrc1 : rc ≤ 1) (hs : s ≤ m) (ht : t ≤ m) :
    smoothStep ac rc s t ≤ m := by
  unfold smoothStep
  split
  · exact convexComboLe hac0 hac1 hs ht
  · exact convexComboLe hrc0 hrc1 hs ht

/-- smoothStep preserves nonnegativity. -/
theorem smoothStep_nonneg {ac rc s t : ℝ} (hac0 : 0 ≤ ac) (hac1 : ac ≤ 1)
    (hrc0 : 0 ≤ rc) (hrc1 : rc ≤ 1) (hs : 0 ≤ s) (ht : 0 ≤ t) :
    0 ≤ smoothStep ac rc s t := by
  unfold smoothStep
  split
  · exact convexComboNonneg hac0 hac1 hs ht
  · exact convexComboNonneg hrc0 hrc1 hs ht

/-- dbToLinear is monotone. -/
theorem dbToLinear_mono {a b : ℝ} (h : a ≤ b) :
    dbToLinear a ≤ dbToLinear b := by
  unfold dbToLinear
  rw [Real.rpow_le_rpow_left_iff (by norm_num : (1 : ℝ) < 10)]
  linarith

/-- dbToLinear is nonnegative. -/
theorem dbToLinear_nonneg (a : ℝ) : 0 ≤ dbToLinear a :=
  Real.rpow_nonneg (by norm_num) _

/-- dbToLinear 0 = 1. -/
theorem dbToLinear_zero : dbToLinear 0 = 1 := by
  unfold dbToLinear
  norm_num

/-- dbToLinear of a nonpositive dB value is at most 1. -/
theorem dbToLinear_le_one {a : ℝ} (h : a ≤ 0) : dbToLinear a ≤ 1 := by
  have := dbToLinear_mono h
  rwa [dbToLinear_zero] at this

/-- The IIR coefficients of computeGainCurve lie in [0,1]. -/
theorem gainCoeff_bounds (τ : ℝ) :
    0 ≤ (if 0 < τ then Real.exp (-1 / (τ * ENVELOPE_SAMPLE_RATE)) else 0) ∧
    (if 0 < τ then Real.exp (-1 / (τ * ENVELOPE_SAMPLE_RATE)) else 0) ≤ 1 := by
  split
  · next h =>
      refine ⟨(Real.exp_pos _).le, ?_⟩
      rw [Real.exp_le_one_iff]
      have hpos : 0 < τ * ENVELOPE_SAMPLE_RATE := by
        have : (0 : ℝ) < ENVELOPE_SAMPLE_RATE := by norm_num [ENVELOPE_SAMPLE_RATE]
        exact mul_pos h this
      have h1 : 0 ≤ 1 / (τ * ENVELOPE_SAMPLE_RATE) := by positivity
      rw [neg_div]
      exact neg_nonpos.mpr h1
  · norm_num

/-- The gain loop emits one gain per RMS sample. -/
theorem gainCurveLoop_length (ac rc maxRed thr : ℝ) ( ratio : ℝ) :
    ∀ (rest : List ℝ) (s : ℝ),
      (gainCurveLoop ac rc maxRed thr ratio s rest).length = rest.length := by
  intro rest
  induction rest with
  | nil => intro s; rfl
  | cons r rest ih =>
      intro s
      simp only [gainCurveLoop, List.length_cons]
      rw [ih]

/-- As long as the smoothed reduction starts below maxReductionDb, every
emitted gain is at least dbToLinear (-maxReductionDb). -/
theorem gainCurveLoop_forall_le_bound {ac rc maxRed thr : ℝ} { ratio : ℝ}
    (hac0 : 0 ≤ ac) (hac1 : ac ≤ 1) (hrc0 : 0 ≤ rc) (hrc1 : rc ≤ 1)
    (hmax : 0 ≤ maxRed) :
    ∀ (rest : List ℝ) (s : ℝ), s ≤ maxRed →
      List.Forall (fun g => dbToLinear (-maxRed) ≤ g)
        (gainCurveLoop ac rc maxRed thr ratio s rest) := by
  intro rest
  induction rest with
  | nil => intro s _; simp [gainCurveLoop]
  | cons r rest ih =>
      intro s hs
      simp only [gainCurveLoop, List.forall_cons]
      have hs' : smoothStep ac rc s (targetReductionDb thr ratio maxRed r)
          ≤ maxRed :=
        smoothStep_le hac0 hac1 hrc0 hrc1 hs
          (targetReductionDb_le_max ratio hmax)
      exact ⟨dbToLinear_mono (by linarith), ih _ hs'⟩

/-- With ratio ≥ 1, starting from a nonnegative smoothed reduction, every
emitted gain lies in [0, 1]. -/
theorem gainCurveLoop_forall_unit {ac rc maxRed thr : ℝ} { ratio : ℝ}
    (hac0 : 0 ≤ ac) (hac1 : ac ≤ 1) (hrc0 : 0 ≤ rc) (hrc1 : rc ≤ 1)
    (hmax : 0 ≤ maxRed) (hr : 1 ≤ ratio) :
    ∀ (rest : List ℝ) (s : ℝ), 0 ≤ s →
      List.Forall (fun g => 0 ≤ g ∧ g ≤ 1)
        (gainCurveLoop ac rc maxRed thr ratio s rest) := by
  intro rest
  induction rest with
  | nil => intro s _; simp [gainCurveLoop]
  | cons r rest ih =>
      intro s hs
      simp only [gainCurveLoop, List.forall_cons]
      have hs' : 0 ≤ smoothStep ac rc s (targetReductionDb thr ratio maxRed r) :=
        smoothStep_nonneg hac0 hac1 hrc0 hrc1 hs
          (targetReductionDb_nonneg hr hmax)
      exact ⟨⟨dbToLinear_nonneg _, dbToLinear_le_one (by linarith)⟩, ih _ hs'⟩

/-- At ratio = 1 the target reduction is 0 for every sample. -/
theorem targetReductionDb_ratio_one {threshold maxReductionDb r : ℝ}
    (hmax : 0 ≤ maxReductionDb) :
    targetReductionDb threshold 1 maxReductionDb r = 0 := by
  unfold targetReductionDb
  split
  · norm_num [min_eq_left hmax]
  · rfl

/-- At ratio = 1 the loop emits 1 at every sample (the smoothed reduction
stays at 0). -/
theorem gainCurveLoop_forall_ratio_one {ac rc maxRed thr : ℝ}
    (hmax : 0 ≤ maxRed) :
    ∀ rest : List ℝ,
      List.Forall (fun g => g = 1) (gainCurveLoop ac rc maxRed thr 1 0 rest) := by
  intro rest
  induction rest with
  | nil => simp [gainCurveLoop]
  | cons r rest ih =>
      simp only [gainCurveLoop, List.forall_cons]
      have hstep : smoothStep ac rc 0 (targetReductionDb thr 1 maxRed r) = 0 := by
        rw [targetReductionDb_ratio_one hmax]
        unfold smoothStep
        split <;> ring
      rw [hstep]
      rw [neg_zero, dbToLinear_zero]
      exact ⟨rfl, ih⟩

/-- computeGainCurve preserves the envelope length. -/
theorem computeGainCurve_length (rmsEnvelope : List ℝ) (threshold : ℝ)
    ( ratio attack release depth : ℝ) :
    (computeGainCurve rmsEnvelope threshold ratio attack release depth).length
      = rmsEnvelope.length := by
  unfold computeGainCurve
  apply gainCurveLoop_length

/-- computeRmsEnvelope emits ⌈(length / sourceRate) · envelopeRate⌉
samples. -/
theorem computeRmsEnvelope_length (mono : List ℝ)
    (sourceSampleRate envelopeSampleRate : ℝ) :
    (computeRmsEnvelope mono sourceSampleRate envelopeSampleRate).length
      = (⌈((mono.length : ℝ) / sourceSampleRate) * envelopeSampleRate⌉).toNat := by
  unfold computeRmsEnvelope
  rw [List.length_map, List.length_range]

/-- `output[idx] += v` preserves the buffer length. -/
theorem addAtInt_length (output : List ℝ) (idx : ℤ) (v : ℝ) :
    (addAtInt output idx v).length = output.length := by
  unfold addAtInt
  split
  · exact List.length_set output idx.toNat _
  · rfl

/-- The inner write loop preserves the buffer length. -/
theorem writeElementLoop_length (mono : List ℝ) (os ss : ℤ) (ρ : ℝ)
    (loop : Bool) (rl : ℤ) :
    ∀ (n i : ℕ) (output : List ℝ),
      (writeElementLoop mono os ss ρ loop rl n i output).length
        = output.length := by
  intro n
  induction n with
  | zero => intro i output; rfl
  | succ n ih =>
      intro i output
      simp only [writeElementLoop]
      split
      · rfl
      · split
        · split
          · rfl
          · rw [ih, addAtInt_length]
        · split
          · rfl
          · rw [ih, addAtInt_length]

/-- Writing one element preserves the buffer length. -/
theorem writeElement_length (output : List ℝ) (element : SourceElementM)
    (targetSampleRate : ℝ) :
    (writeElement output element targetSampleRate).length = output.length := by
  unfold writeElement
  rw [writeElementLoop_length]

/-- The composed buffer has ⌈timelineDuration · targetSampleRate⌉
samples. -/
theorem composeSourceTrackBuffer_length (elements : List SourceElementM)
    (timelineDuration targetSampleRate : ℝ) :
    (composeSourceTrackBuffer elements timelineDuration targetSampleRate).length
      = (⌈timelineDuration * targetSampleRate⌉).toNat := by
  unfold composeSourceTrackBuffer
  have haux : ∀ (l : List SourceElementM) (acc : List ℝ),
      (l.foldl (fun output element =>
        writeElement output element targetSampleRate) acc).length
        = acc.length := by
    intro l
    induction l with
    | nil => intro acc; rfl
    | cons e l ih =>
        intro acc
        rw [List.foldl_cons, ih, writeElement_length]
  rw [haux, List.length_replicate]

/-- C7: for every RMS envelope and all five parameters, every gain emitted
by computeGainCurve is at least dbToLinear (-|depth|) = 10 ^ (-|depth|/20):
the smoothed reduction never exceeds the per-sample clamp |depth|. -/
theorem sidechain_gain_curve_depth_bound (rmsEnvelope : List ℝ)
    (threshold : ℝ) ( ratio attack release depth : ℝ) :
    List.Forall (fun g => dbToLinear (-|depth|) ≤ g)
      (computeGainCurve rmsEnvelope threshold ratio attack release depth) := by
  unfold computeGainCurve
  obtain ⟨ha0, ha1⟩ := gainCoeff_bounds attack
  obtain ⟨hr0, hr1⟩ := gainCoeff_bounds release
  exact gainCurveLoop_forall_le_bound ha0 ha1 hr0 hr1 (abs_nonneg depth)
    rmsEnvelope 0 (abs_nonneg depth)

/-- C8: with ratio = 1 the compressor is a pass-through: computeGainCurve
returns exactly 1 at every sample (over ℝ; the JS computation agrees up to
float epsilon). -/
theorem sidechain_gain_curve_ratio_one_unity (rmsEnvelope : List ℝ)
    (threshold attack release depth : ℝ) :
    List.Forall (fun g => g = 1)
      (computeGainCurve rmsEnvelope threshold 1 attack release depth) := by
  unfold computeGainCurve
  exact gainCurveLoop_forall_ratio_one (abs_nonneg depth) rmsEnvelope

/-- C6: every envelope produced by computeSidechainEnvelope (zero-elements
case included) has gainValues.length = ⌈duration · 200⌉, and every gain
value lies in [0, 1].  The hypotheses are the documented parameter and
data invariants: nonnegative timeline duration, ratio ≥ 1 (SidechainParams
declares ratio ∈ [1,20]), positive buffer sample rates. -/
theorem sidechain_envelope_shape (sourceElements : List SourceElementM)
    (timelineDuration threshold : ℝ) ( ratio attack release depth : ℝ)
    (hdur : 0 ≤ timelineDuration) (hr : 1 ≤ ratio)
    (hsr : ∀ el ∈ sourceElements, 0 < el.buffer.sampleRate) :
    (((computeSidechainEnvelope sourceElements timelineDuration threshold
        ratio attack release depth).gainValues.length : ℤ)
      = ⌈(computeSidechainEnvelope sourceElements timelineDuration threshold
        ratio attack release depth).duration * 200⌉) ∧
    List.Forall (fun g => 0 ≤ g ∧ g ≤ 1)
      (computeSidechainEnvelope sourceElements timelineDuration threshold
        ratio attack release depth).gainValues := by
  obtain ⟨ha0, ha1⟩ := gainCoeff_bounds attack
  obtain ⟨hc0, hc1⟩ := gainCoeff_bounds release
  cases sourceElements with
  | nil =>
      constructor
      · simp only [computeSidechainEnvelope, List.length_replicate]
        have h200 : ENVELOPE_SAMPLE_RATE = (200 : ℝ) := rfl
        rw [h200]
        exact Int.toNat_of_nonneg (Int.ceil_nonneg (by positivity))
      · simp only [computeSidechainEnvelope]
        rw [List.forall_iff_forall_mem]
        intro g hg
        rw [List.eq_of_mem_replicate hg]
        norm_num
  | cons el0 rest =>
      have hsr0 : 0 < el0.buffer.sampleRate :=
        hsr el0 (List.mem_cons_self el0 rest)
      constructor
      · simp only [computeSidechainEnvelope, computeEnvelopeFromBuffer]
        rw [computeGainCurve_length, computeRmsEnvelope_length]
        have h200 : ENVELOPE_SAMPLE_RATE = (200 : ℝ) := rfl
        rw [h200]
        have hnn : (0 : ℝ) ≤
            ((composeSourceTrackBuffer (el0 :: rest) timelineDuration
              el0.buffer.sampleRate).length : ℝ) / el0.buffer.sampleRate
            * 200 := by
          have := div_nonneg
            (Nat.cast_nonneg (composeSourceTrackBuffer (el0 :: rest)
              timelineDuration el0.buffer.sampleRate).length)
            (le_of_lt hsr0)
          positivity
        exact Int.toNat_of_nonneg (Int.ceil_nonneg hnn)
      · simp only [computeSidechainEnvelope, computeEnvelopeFromBuffer,
          computeGainCurve]
        exact gainCurveLoop_forall_unit ha0 ha1 hc0 hc1 (abs_nonneg depth)
          hr _ 0 (le_refl 0)

/-- C6 witness: the theorem at the zero-elements case with timeline
duration 1 and the in-range parameters (-20, 1, 1/100, 1/5, -24). -/
theorem sidechain_envelope_shape_witness :
    (((computeSidechainEnvelope [] 1 (-20) 1 (1/100) (1/5)
        (-24)).gainValues.length : ℤ)
      = ⌈(computeSidechainEnvelope [] 1 (-20) 1 (1/100) (1/5)
        (-24)).duration * 200⌉) ∧
    List.Forall (fun g => 0 ≤ g ∧ g ≤ 1)
      (computeSidechainEnvelope [] 1 (-20) 1 (1/100) (1/5)
        (-24)).gainValues :=
  sidechain_envelope_shape [] 1 (-20) 1 (1/100) (1/5) (-24)
    zero_le_one (le_refl 1) (by simp)

/-- Folding multiplication over a list starting from g is g times the
product. -/
theorem foldl_mul_map {α : Type} (f : α → ℝ) :
    ∀ (l : List α) (g : ℝ),
      l.foldl (fun cg e => cg * f e) g = g * (l.map f).prod := by
  intro l
  induction l with
  | nil => intro g; simp
  | cons e l ih =>
      intro g
      simp only [List.foldl_cons, List.map_cons, List.prod_cons]
      rw [ih]
      ring

/-- The slow-path fold (skipping configs with no cached envelope) is the
product over the cached envelopes. -/
theorem foldl_skip_cache (cache : String → Option SidechainEnvelopeR)
    (time : ℝ) :
    ∀ (l : List SidechainConfigM) (g : ℝ),
      l.foldl (fun combinedGain c =>
        match cache c.id with
        | none => combinedGain
        | some envelope =>
            combinedGain * getEnvelopeGainAtTime envelope time) g
      = g * ((l.filterMap (fun c => cache c.id)).map
          (fun e => getEnvelopeGainAtTime e time)).prod := by
  intro l
  induction l with
  | nil => intro g; simp
  | cons c l ih =>
      intro g
      simp only [List.foldl_cons, List.filterMap_cons]
      cases hc : cache c.id with
      | none => rw [ih]
      | some envelope =>
          simp only [List.map_cons, List.prod_cons]
          rw [ih]
          ring

/-- With a duplicate-free target list (targetTrackIds is a set), one
pushed envelope lands exactly once at the queried key when the config
targets it, and never otherwise. -/
theorem pushTargets_apply (envelope : SidechainEnvelopeR) :
    ∀ (ts : List String), ts.Nodup →
      ∀ (lk : String → List SidechainEnvelopeR) (k : String),
      (ts.foldl (fun lk2 targetId =>
          fun key => if key = targetId then lk2 key ++ [envelope]
            else lk2 key) lk) k
        = lk k ++ (if k ∈ ts then [envelope] else []) := by
  intro ts
  induction ts with
  | nil => intro _ lk k; simp
  | cons t ts ih =>
      intro hnd lk k
      obtain ⟨htn, hnd2⟩ := List.nodup_cons.mp hnd
      rw [List.foldl_cons, ih hnd2]
      by_cases hk : k = t
      · subst hk
        have hkts : k ∉ ts := htn
        rw [if_pos rfl, if_neg hkts, if_pos (List.mem_cons_self k ts)]
        simp
      · rw [if_neg hk]
        by_cases hmem : k ∈ ts
        · rw [if_pos hmem, if_pos (List.mem_cons_of_mem t hmem)]
        · rw [if_neg hmem, if_neg (by simp [List.mem_cons, hk, hmem])]

/-- Unfolding buildGainLookup's outer fold at one key: the base lookup's
value followed by each config's contribution in order. -/
theorem buildGainLookup_fold_apply
    (cache : String → Option SidechainEnvelopeR)
    (targetsOf : SidechainConfigM → List String) :
    ∀ (l : List SidechainConfigM), (∀ c ∈ l, (targetsOf c).Nodup) →
      ∀ (lk : String → List SidechainEnvelopeR) (k : String),
      (l.foldl (fun lookup c =>
        match cache c.id with
        | none => lookup
        | some envelope =>
            (targetsOf c).foldl (fun lk2 targetId =>
              fun key => if key = targetId then lk2 key ++ [envelope]
                else lk2 key) lookup) lk) k
      = lk k ++ l.foldr (fun c acc =>
          (match cache c.id with
           | none => []
           | some envelope =>
               if k ∈ targetsOf c then [envelope] else []) ++ acc) [] := by
  intro l
  induction l with
  | nil => intro _ lk k; simp
  | cons c l ih =>
      intro hnd lk k
      have hc : (targetsOf c).Nodup := hnd c (List.mem_cons_self c l)
      have hl : ∀ x ∈ l, (targetsOf x).Nodup := fun x hx =>
        hnd x (List.mem_cons_of_mem c hx)
      rw [List.foldl_cons, List.foldr_cons, ih hl]
      cases hcc : cache c.id with
      | none => simp
      | some envelope =>
          simp only []
          rw [pushTargets_apply envelope (targetsOf c) hc]
          rw [List.append_assoc]

/-- Under the documented set-ness of target lists, the lookup built by
prepareForPlayback maps a key to exactly the cached envelopes of the
enabled configs targeting it, in config order. -/
theorem buildGainLookup_eq_envelopesTargeting
    (cache : String → Option SidechainEnvelopeR)
    (targetsOf : SidechainConfigM → List String) (k : String) :
    ∀ (configs : List SidechainConfigM),
      (∀ c ∈ configs, (targetsOf c).Nodup) →
      buildGainLookup configs cache targetsOf k
        = envelopesTargeting configs cache targetsOf k := by
  have key : ∀ (l : List SidechainConfigM), (∀ c ∈ l, (targetsOf c).Nodup) →
      (l.filter (fun c => c.enabled)).foldr (fun c acc =>
          (match cache c.id with
           | none => []
           | some envelope =>
               if k ∈ targetsOf c then [envelope] else []) ++ acc) []
      = (l.filter (fun c => c.enabled && (targetsOf c).contains k)).filterMap
          (fun c => cache c.id) := by
    intro l
    induction l with
    | nil => intro _; rfl
    | cons c l ih =>
        intro hnd
        have hl : ∀ x ∈ l, (targetsOf x).Nodup := fun x hx =>
          hnd x (List.mem_cons_of_mem c hx)
        have ihl := ih hl
        by_cases he : c.enabled
        · rw [List.filter_cons_of_pos (by simp [he]), List.foldr_cons, ihl]
          by_cases ht : k ∈ targetsOf c
          · have ht2 : (targetsOf c).contains k = true := by
              simpa using ht
            rw [List.filter_cons_of_pos (by simp [he, ht, ht2]),
              List.filterMap_cons]
            cases hcc : cache c.id with
            | none => simp
            | some envelope => simp [ht]
          · have ht2 : ¬(targetsOf c).contains k = true := by
              simpa using ht
            rw [List.filter_cons_of_neg (by simp [he, ht, ht2])]
            cases hcc : cache c.id with
            | none => simp
            | some envelope => simp [ht]
        · rw [List.filter_cons_of_neg (by simp [he]),
            List.filter_cons_of_neg (by simp [he])]
          exact ihl
  intro configs hnd
  have hfiltered : ∀ c ∈ configs.filter (fun c => c.enabled),
      (targetsOf c).Nodup := fun c hcf =>
    hnd c (List.mem_of_mem_filter hcf)
  unfold buildGainLookup envelopesTargeting
  rw [buildGainLookup_fold_apply cache targetsOf
    (configs.filter (fun c => c.enabled)) hfiltered]
  simp only [List.nil_append]
  exact key configs hnd

/-- C9: with the playback tables unset (cold) and equally after
prepareForPlayback (hot), getSidechainGainForTrack and
getSidechainGainForOneshot return the product of getEnvelopeGainAtTime
over the cached envelopes of the enabled configs targeting the id (so 1.0
when no enabled config targets it, the empty product); and
getEnvelopeGainAtTime returns 1 whenever the query time lies outside
[0, duration).  The hot/cold agreement uses the documented set-ness
(no duplicates) of the target id lists. -/
theorem sidechain_gain_query_product (configs : List SidechainConfigM)
    (cache : String → Option SidechainEnvelopeR)
    (trackId definitionId : String) (time : ℝ)
    (hnodup : ∀ c ∈ configs,
      c.targetTrackIds.Nodup ∧ c.targetOneshotDefinitionIds.Nodup) :
    getSidechainGainForTrack ⟨configs, cache, none, none⟩ trackId time
      = ((envelopesTargeting configs cache (fun c => c.targetTrackIds)
          trackId).map (fun e => getEnvelopeGainAtTime e time)).prod ∧
    getSidechainGainForOneshot ⟨configs, cache, none, none⟩ definitionId time
      = ((envelopesTargeting configs cache
          (fun c => c.targetOneshotDefinitionIds)
          definitionId).map (fun e => getEnvelopeGainAtTime e time)).prod ∧
    getSidechainGainForTrack
        (sidechainPrepareForPlayback ⟨configs, cache, none, none⟩)
        trackId time
      = ((envelopesTargeting configs cache (fun c => c.targetTrackIds)
          trackId).map (fun e => getEnvelopeGainAtTime e time)).prod ∧
    getSidechainGainForOneshot
        (sidechainPrepareForPlayback ⟨configs, cache, none, none⟩)
        definitionId time
      = ((envelopesTargeting configs cache
          (fun c => c.targetOneshotDefinitionIds)
          definitionId).map (fun e => getEnvelopeGainAtTime e time)).prod ∧
    (∀ (envelope : SidechainEnvelopeR) (t : ℝ),
      t < 0 ∨ envelope.duration ≤ t →
      getEnvelopeGainAtTime envelope t = 1) := by
  have coldTrack :
      getSidechainGainForTrack ⟨configs, cache, none, none⟩ trackId time
        = ((envelopesTargeting configs cache (fun c => c.targetTrackIds)
            trackId).map (fun e => getEnvelopeGainAtTime e time)).prod := by
    simp only [getSidechainGainForTrack]
    by_cases h : (configs.filter
        (fun c => c.enabled && c.targetTrackIds.contains trackId)).length = 0
    · rw [if_pos h]
      have hempt := List.length_eq_zero.mp h
      unfold envelopesTargeting
      rw [hempt]
      simp
    · rw [if_neg h, foldl_skip_cache]
      unfold envelopesTargeting
      rw [one_mul]
  have coldOneshot :
      getSidechainGainForOneshot ⟨configs, cache, none, none⟩ definitionId
          time
        = ((envelopesTargeting configs cache
            (fun c => c.targetOneshotDefinitionIds)
            definitionId).map (fun e => getEnvelopeGainAtTime e time)).prod := by
    simp only [getSidechainGainForOneshot]
    by_cases h : (configs.filter
        (fun c => c.enabled &&
          c.targetOneshotDefinitionIds.contains definitionId)).length = 0
    · rw [if_pos h]
      have hempt := List.length_eq_zero.mp h
      unfold envelopesTargeting
      rw [hempt]
      simp
    · rw [if_neg h, foldl_skip_cache]
      unfold envelopesTargeting
      rw [one_mul]
  have hotTrack :
      getSidechainGainForTrack
          (sidechainPrepareForPlayback ⟨configs, cache, none, none⟩)
          trackId time
        = ((envelopesTargeting configs cache (fun c => c.targetTrackIds)
            trackId).map (fun e => getEnvelopeGainAtTime e time)).prod := by
    simp only [sidechainPrepareForPlayback, getSidechainGainForTrack]
    rw [foldl_mul_map, one_mul]
    rw [buildGainLookup_eq_envelopesTargeting cache
      (fun c => c.targetTrackIds) trackId configs
      (fun c hc => (hnodup c hc).1)]
  have hotOneshot :
      getSidechainGainForOneshot
          (sidechainPrepareForPlayback ⟨configs, cache, none, none⟩)
          definitionId time
        = ((envelopesTargeting configs cache
            (fun c => c.targetOneshotDefinitionIds)
            definitionId).map (fun e => getEnvelopeGainAtTime e time)).prod := by
    simp only [sidechainPrepareForPlayback, getSidechainGainForOneshot]
    rw [foldl_mul_map, one_mul]
    rw [buildGainLookup_eq_envelopesTargeting cache
      (fun c => c.targetOneshotDefinitionIds) definitionId configs
      (fun c hc => (hnodup c hc).2)]
  refine ⟨coldTrack, coldOneshot, hotTrack, hotOneshot, ?_⟩
  intro envelope t h
  unfold getEnvelopeGainAtTime
  rw [if_pos h]

/-- C9 witness: the theorem at the empty manager (no configs, empty cache)
with track id X, one-shot definition id D and time 0; the out-of-range
part is exercised at the envelope ⟨200, [], 0⟩ and t = -1. -/
theorem sidechain_gain_query_product_witness :
    getSidechainGainForTrack ⟨[], fun _ => none, none, none⟩ "X" 0
      = ((envelopesTargeting [] (fun _ => none)
          (fun c => c.targetTrackIds) "X").map
          (fun e => getEnvelopeGainAtTime e 0)).prod ∧
    getSidechainGainForOneshot ⟨[], fun _ => none, none, none⟩ "D" 0
      = ((envelopesTargeting [] (fun _ => none)
          (fun c => c.targetOneshotDefinitionIds) "D").map
          (fun e => getEnvelopeGainAtTime e 0)).prod ∧
    getEnvelopeGainAtTime ⟨200, [], 0⟩ (-1) = 1 := by
  have h := sidechain_gain_query_product [] (fun _ => none) "X" "D" 0
    (by simp)
  exact ⟨h.1, h.2.1, h.2.2.2.2 ⟨200, [], 0⟩ (-1) (Or.inl (by norm_num))⟩

/-- C10: the cascade deletes preserve referential integrity in one scene
update: after deleteDefinition no one-shot marker references the deleted
definition id, and after deleteState no automation marker references the
deleted state id. -/
theorem delete_cascade_referential_integrity (scene : SceneM)
    (definitionId stateId : String) :
    ((deleteDefinition scene definitionId).oneshotMarkers.all
      (fun m => m.oneshotId != definitionId)) = true ∧
    ((deleteState scene stateId).automationMarkers.all
      (fun m => m.stateId != stateId)) = true := by
  constructor
  · simp only [deleteDefinition]
    rw [List.all_eq_true]
    intro m hm
    exact (List.mem_filter.mp hm).2
  · simp only [deleteState]
    rw [List.all_eq_true]
    intro m hm
    exact (List.mem_filter.mp hm).2
